import Mathlib

/-!
Shallow embedding of the Flashka kiosk server (src/server.js): the token
ledger, the daily metrics aggregator, and the scan-landing request handler
at app.get('/kiosk/play/:token').  The file-backed store (fileStore, lines
104-138 of src/server.js) is the embedded implementation; stateful code is
explicit state passing.  JS numbers that hold token values and counters are
modelled as Int / Nat (the program only ever produces integral values in
the exact range).
-/

namespace Flashka

/-! ## Metrics aggregator (fileStore.bumpMetric / getMetrics / getMetricsRows) -/

/-- The four counter names the handler passes to bumpMetric. -/
inductive MetricKind where
  | qr_scans
  | unique_scans
  | redirects
  | revisits
deriving DecidableEq, Repr

/-- One day's record, as created by bumpMetric:
{ qr_scans: 0, unique_scans: 0, redirects: 0, revisits: 0 }. -/
structure DayCounters where
  qr_scans : Nat
  unique_scans : Nat
  redirects : Nat
  revisits : Nat
deriving DecidableEq, Repr

def DayCounters.zero : DayCounters := ⟨0, 0, 0, 0⟩

def DayCounters.get (c : DayCounters) : MetricKind → Nat
  | .qr_scans => c.qr_scans
  | .unique_scans => c.unique_scans
  | .redirects => c.redirects
  | .revisits => c.revisits

/-- Field update metrics.days[day][kind] = (metrics.days[day][kind] || 0) + 1
on one day record (all four fields exist and start at 0, so || 0 is id). -/
def DayCounters.bump (c : DayCounters) : MetricKind → DayCounters
  | .qr_scans => { c with qr_scans := c.qr_scans + 1 }
  | .unique_scans => { c with unique_scans := c.unique_scans + 1 }
  | .redirects => { c with redirects := c.redirects + 1 }
  | .revisits => { c with revisits := c.revisits + 1 }

/-- The JS object metrics.days, modelled as an association list in key
insertion order (JS objects keep string keys in insertion order, and the
day keys "YYYY-MM-DD" are not array indices). -/
def DayMap : Type := List (String × DayCounters)

/-- Lookup of metrics.days[day]. -/
def lookupDay (day : String) : List (String × DayCounters) → Option DayCounters
  | [] => none
  | (d, c) :: rest => if d = day then some c else lookupDay day rest

/-- Effect of fileStore.bumpMetric's body on metrics.days: create the day
record with all counters 0 if absent (inserted at the end, as JS object
insertion does), then add 1 to the named counter. -/
def bumpDays (day : String) (k : MetricKind) :
    List (String × DayCounters) → List (String × DayCounters)
  | [] => [(day, DayCounters.zero.bump k)]
  | (d, c) :: rest =>
    if d = day then (d, c.bump k) :: rest else (d, c) :: bumpDays day k rest

/-- The metrics.json document: { tz, days } (tz is the constant BRIS_TZ and
carries no state, so only days is modelled). -/
structure Metrics where
  days : List (String × DayCounters)
deriving DecidableEq, Repr

/-- The fallback loadJson(METRICS_FILE, { tz: BRIS_TZ, days: {} }). -/
def Metrics.empty : Metrics := ⟨[]⟩

/-- fileStore.bumpMetric(kind) at a fixed day key (the handler computes the
day via dayKeyBrisbane(); it is passed here as a parameter). -/
def Metrics.bumpMetric (m : Metrics) (day : String) (k : MetricKind) : Metrics :=
  ⟨bumpDays day k m.days⟩

/-- fileStore.getMetrics: returns the metrics object itself, no mutation. -/
def Metrics.getMetrics (m : Metrics) : Metrics := m

/-- fileStore.getMetricsRows:
Object.keys(metrics.days).sort().map(d => ({ day: d, ...metrics.days[d] })).
Array.prototype.sort() on the "YYYY-MM-DD" keys is lexicographic string
order.  The lookup cannot miss (every key comes from the map); getD zero is
the total-function rendering of that access. -/
def Metrics.getMetricsRows (m : Metrics) : List (String × DayCounters) :=
  ((m.days.map Prod.fst).mergeSort (fun a b => decide (a ≤ b))).map
    (fun d => (d, (lookupDay d m.days).getD DayCounters.zero))

/-- Stored value of one counter for one day (0 when the day is absent). -/
def Metrics.count (m : Metrics) (day : String) (k : MetricKind) : Nat :=
  ((lookupDay day m.days).getD DayCounters.zero).get k

/-- A sequence of bumpMetric calls, applied in order. -/
def applyBumps (m : Metrics) (ops : List (String × MetricKind)) : Metrics :=
  ops.foldl (fun acc p => acc.bumpMetric p.1 p.2) m

/-! ## Token ledger and kiosk state (fileStore, src/server.js lines 104-138) -/

/-- The state.json document { currentToken, consumed } together with the
metrics document.  consumed maps String(token) to a timestamp; string
conversion is injective on integers and isConsumed only tests membership,
so it is modelled as the list of consumed token values. -/
structure KioskState where
  currentToken : Int
  consumed : List Int
  metrics : Metrics
deriving DecidableEq, Repr

/-- The fallback loadJson(STATE_FILE, { currentToken: 1000, consumed: {} })
together with empty metrics: the state of a fresh kiosk. -/
def initialState : KioskState :=
  { currentToken := 1000, consumed := [], metrics := Metrics.empty }

/-- fileStore.isConsumed: !!state.consumed[String(token)]. -/
def KioskState.isConsumed (s : KioskState) (t : Int) : Bool :=
  s.consumed.contains t

/-- fileStore.consumeToken: state.consumed[String(token)] = timestamp. -/
def KioskState.consumeToken (s : KioskState) (t : Int) : KioskState :=
  { s with consumed := t :: s.consumed }

/-- store.bumpMetric lifted to the whole kiosk state. -/
def KioskState.bump (s : KioskState) (day : String) (k : MetricKind) : KioskState :=
  { s with metrics := s.metrics.bumpMetric day k }

/-- Lines 333-336 of src/server.js:
const current = await store.getCurrentToken();
if (token === current) await store.setCurrentToken(current + 1). -/
def advanceIfCurrent (s : KioskState) (t : Int) : KioskState :=
  if t = s.currentToken then { s with currentToken := s.currentToken + 1 } else s

/-! ## Token parsing: parseInt(req.params.token, 10) plus Number.isInteger -/

/-- Numeric value of a run of decimal digit characters. -/
def digitsVal (l : List Char) : Nat :=
  l.foldl (fun acc c => acc * 10 + (c.toNat - 48)) 0

/-- Optional leading sign, as parseInt consumes it. -/
def splitSign : List Char → Int × List Char
  | '-' :: rest => (-1, rest)
  | '+' :: rest => (1, rest)
  | l => (1, l)

/-- parseInt(s, 10) followed by the Number.isInteger test of line 323:
skip leading whitespace, take an optional sign and then the longest run of
leading decimal digits; NaN (none) when that run is empty, else the signed
value of the run.  parseInt always yields an integer or NaN, so
Number.isInteger(token) fails exactly on none.  (Float rounding of
magnitudes beyond 2^53 is not modelled; tokens are small.) -/
def parseIntJs (s : String) : Option Int :=
  let l := s.data.dropWhile Char.isWhitespace
  let p := splitSign l
  let ds := p.2.takeWhile Char.isDigit
  if ds.isEmpty then none else some (p.1 * (digitsVal ds : Int))

/-! ## The scan-landing handler app.get('/kiosk/play/:token'), lines 321-353 -/

/-- The three responses the handler can produce: 400 Invalid token,
302 redirect to GAME_URL_TEMPLATE with the token substituted, or the
410 "Link expired" page. -/
inductive ScanResponse where
  | invalidToken
  | redirect (t : Int)
  | expired
deriving DecidableEq, Repr

/-- The handler body, sequentially (one request at a time): parse the
token; on NaN respond 400 with no state change; else bump qr_scans, test
isConsumed; if unused: consumeToken, bump unique_scans, advance the
current token if it matches, bump redirects, redirect; if used: bump
revisits and respond 410.  All bumpMetric calls of one request are taken
at one day key, passed as a parameter. -/
def handleScan (s : KioskState) (tokenStr : String) (day : String) :
    ScanResponse × KioskState :=
  match parseIntJs tokenStr with
  | none => (ScanResponse.invalidToken, s)
  | some token =>
    let s1 := s.bump day .qr_scans
    if s1.isConsumed token then
      (ScanResponse.expired, s1.bump day .revisits)
    else
      let s2 := s1.consumeToken token
      let s3 := s2.bump day .unique_scans
      let s4 := advanceIfCurrent s3 token
      let s5 := s4.bump day .redirects
      (ScanResponse.redirect token, s5)

/-- A sequence of scan-landing requests (token string, day key), processed
one after another. -/
def runScans (s : KioskState) : List (String × String) → KioskState
  | [] => s
  | (ts, day) :: rest => runScans (handleScan s ts day).2 rest

/-- The balance invariant of the handler's bookkeeping: per day,
unique_scans = redirects and qr_scans = unique_scans + revisits. -/
def metricsBalanced (m : Metrics) : Prop :=
  ∀ d : String,
    m.count d .unique_scans = m.count d .redirects ∧
    m.count d .qr_scans = m.count d .unique_scans + m.count d .revisits

/-! ## Interleaved execution of the handler (Node event loop)

Each await in the handler body (lines 326-345 of src/server.js) yields to
the event loop, so two in-flight requests interleave at those points while
every store operation itself runs to completion.  A thread is one request
for a valid token; its phase names the next store operation it will run. -/

/-- Program counter of one in-flight scan-landing request: the store call
it performs next.  advance carries the currentToken value read one await
earlier, as the handler's local variable current does. -/
inductive Phase where
  | bumpScan
  | check
  | branch (used : Bool)
  | bumpUnique
  | readCur
  | advance (cur : Int)
  | bumpRedirect
  | doneRedirect
  | doneExpired
deriving DecidableEq, Repr

/-- One in-flight request: its parsed token, the day key its bumps use,
and its program counter. -/
structure Thread where
  token : Int
  day : String
  phase : Phase
deriving DecidableEq, Repr

/-- One atomic store operation of the handler, between two awaits:
bump qr_scans; read isConsumed; on used bump revisits and finish expired;
on unused consumeToken; bump unique_scans; read currentToken; conditionally
setCurrentToken(current + 1); bump redirects and finish with the redirect. -/
def stepThread (g : KioskState) (th : Thread) : KioskState × Thread :=
  match th.phase with
  | .bumpScan => (g.bump th.day .qr_scans, { th with phase := .check })
  | .check => (g, { th with phase := .branch (g.isConsumed th.token) })
  | .branch true => (g.bump th.day .revisits, { th with phase := .doneExpired })
  | .branch false => (g.consumeToken th.token, { th with phase := .bumpUnique })
  | .bumpUnique => (g.bump th.day .unique_scans, { th with phase := .readCur })
  | .readCur => (g, { th with phase := .advance g.currentToken })
  | .advance cur =>
    ((if th.token = cur then { g with currentToken := cur + 1 } else g),
     { th with phase := .bumpRedirect })
  | .bumpRedirect => (g.bump th.day .redirects, { th with phase := .doneRedirect })
  | .doneRedirect => (g, th)
  | .doneExpired => (g, th)

/-- Two concurrent requests interleaved by a schedule: true runs one store
operation of the first thread, false one of the second. -/
def runTwo (g : KioskState) (t1 t2 : Thread) :
    List Bool → KioskState × Thread × Thread
  | [] => (g, t1, t2)
  | true :: rest =>
    let p := stepThread g t1
    runTwo p.1 p.2 t2 rest
  | false :: rest =>
    let p := stepThread g t2
    runTwo p.1 t1 p.2 rest

/-! ## Day keys (dayKeyBrisbane, src/server.js lines 44-54)

The source formats the current instant with
Intl.DateTimeFormat('en-CA', { timeZone: 'Australia/Brisbane',
year: 'numeric', month: '2-digit', day: '2-digit' }), producing
"YYYY-MM-DD".  The Intl library call is modelled here: Australia/Brisbane
is fixed at UTC+10 with no daylight saving throughout the Unix era, so the
formatted day is the proleptic Gregorian calendar date of the instant
shifted by +10 hours.  The model takes the instant as milliseconds since
the Unix epoch and walks the Gregorian calendar forward from 1970-01-01
(instants before the epoch day are outside the model's domain and clamp
to it). -/

/-- Decimal digit characters of n, most significant first: the digits a
numeric (unpadded) formatter emits. -/
def renderChars (n : Nat) : List Char :=
  if n < 10 then [Nat.digitChar n]
  else renderChars (n / 10) ++ [Nat.digitChar (n % 10)]
decreasing_by exact Nat.div_lt_self (by omega) (by omega)

/-- Two-digit zero-padded rendering, as the '2-digit' fields emit for
values below 100. -/
def pad2 (n : Nat) : List Char :=
  [Nat.digitChar (n / 10), Nat.digitChar (n % 10)]

/-- A Gregorian calendar date. -/
structure Date where
  year : Nat
  month : Nat
  day : Nat
deriving DecidableEq, Repr

/-- Gregorian leap year rule. -/
def isLeapYear (y : Nat) : Bool :=
  (y % 4 = 0 && y % 100 ≠ 0) || y % 400 = 0

/-- Length of a month in the Gregorian calendar. -/
def daysInMonth (y m : Nat) : Nat :=
  if m = 2 then (if isLeapYear y then 29 else 28)
  else if m = 4 ∨ m = 6 ∨ m = 9 ∨ m = 11 then 30 else 31

/-- The calendar successor of a date. -/
def nextDate (d : Date) : Date :=
  if d.day < daysInMonth d.year d.month then ⟨d.year, d.month, d.day + 1⟩
  else if d.month < 12 then ⟨d.year, d.month + 1, 1⟩
  else ⟨d.year + 1, 1, 1⟩

/-- The Unix epoch day in the Brisbane calendar. -/
def epochDate : Date := ⟨1970, 1, 1⟩

/-- The date n calendar days after 1970-01-01. -/
def dateFromEpochDays (n : Nat) : Date :=
  Nat.iterate nextDate n epochDate

/-- A structurally sound calendar date. -/
def ValidDate (d : Date) : Prop :=
  1 ≤ d.month ∧ d.month ≤ 12 ∧ 1 ≤ d.day ∧ d.day ≤ daysInMonth d.year d.month

/-- Strict calendar order on dates. -/
def dateLt (a b : Date) : Prop :=
  a.year < b.year ∨
    (a.year = b.year ∧
      (a.month < b.month ∨ (a.month = b.month ∧ a.day < b.day)))

/-- The en-CA rendering "YYYY-MM-DD": numeric year, two-digit month and
day, joined by dashes. -/
def formatDate (d : Date) : String :=
  String.mk (renderChars d.year ++ '-' :: pad2 d.month ++ '-' :: pad2 d.day)

/-- Day number of an instant in the Brisbane calendar: milliseconds since
the Unix epoch, shifted by the fixed +10 h offset of Australia/Brisbane,
floor-divided into days (Int division by a positive divisor is floor
division). -/
def brisbaneEpochDay (ms : Int) : Int :=
  (ms + 36000000) / 86400000

/-- dayKeyBrisbane(d): the "YYYY-MM-DD" key of the instant in the fixed
Australia/Brisbane timezone. -/
def dayKeyBrisbane (ms : Int) : String :=
  formatDate (dateFromEpochDays (brisbaneEpochDay ms).toNat)

/-! ## Lemmas: the metrics aggregator -/

theorem DayCounters.get_bump (c : DayCounters) (k k2 : MetricKind) :
    (c.bump k).get k2 = if k = k2 then c.get k2 + 1 else c.get k2 := by
  cases k <;> cases k2 <;> simp [DayCounters.bump, DayCounters.get]

theorem lookupDay_bumpDays (day d : String) (k : MetricKind)
    (l : List (String × DayCounters)) :
    lookupDay d (bumpDays day k l) =
      if day = d then some (((lookupDay d l).getD DayCounters.zero).bump k)
      else lookupDay d l := by
  induction l with
  | nil =>
    simp only [bumpDays, lookupDay]
    split <;> simp_all [lookupDay]
  | cons hd tl ih =>
    obtain ⟨a, c⟩ := hd
    by_cases haday : a = day
    · subst haday
      simp only [bumpDays, if_pos rfl, lookupDay]
      by_cases had : a = d <;> simp [had]
    · simp only [bumpDays, if_neg haday, lookupDay]
      by_cases had : a = d
      · subst had
        have hday : ¬ day = a := fun h => haday h.symm
        simp [hday]
      · simp [had, ih]

theorem Metrics.count_bumpMetric (m : Metrics) (day d : String)
    (k k2 : MetricKind) :
    (m.bumpMetric day k).count d k2 =
      if day = d ∧ k = k2 then m.count d k2 + 1 else m.count d k2 := by
  simp only [Metrics.bumpMetric, Metrics.count, lookupDay_bumpDays]
  by_cases hd : day = d <;> by_cases hk : k = k2 <;>
    simp_all [DayCounters.get_bump]

theorem Metrics.count_applyBumps (m : Metrics)
    (ops : List (String × MetricKind)) (d : String) (k : MetricKind) :
    (applyBumps m ops).count d k = m.count d k + ops.count (d, k) := by
  induction ops generalizing m with
  | nil => simp [applyBumps]
  | cons p rest ih =>
    obtain ⟨pd, pk⟩ := p
    have hstep : applyBumps m ((pd, pk) :: rest)
        = applyBumps (m.bumpMetric pd pk) rest := rfl
    rw [hstep, ih, Metrics.count_bumpMetric, List.count_cons]
    by_cases hd : pd = d <;> by_cases hk : pk = k <;>
      simp_all [Prod.ext_iff] <;> omega

theorem lookupDay_eq_none_iff (d : String) (l : List (String × DayCounters)) :
    lookupDay d l = none ↔ d ∉ l.map Prod.fst := by
  induction l with
  | nil => simp [lookupDay]
  | cons hd tl ih =>
    obtain ⟨a, c⟩ := hd
    simp only [lookupDay, List.map_cons, List.mem_cons]
    by_cases had : a = d
    · subst had
      simp
    · have hda : ¬ d = a := fun h => had h.symm
      simp [had, hda, ih]

theorem lookupDay_isSome_of_mem (d : String) (l : List (String × DayCounters))
    (h : d ∈ l.map Prod.fst) : ∃ c, lookupDay d l = some c := by
  rcases hc : lookupDay d l with _ | c
  · exact absurd ((lookupDay_eq_none_iff d l).mp hc) (by simp [h])
  · exact ⟨c, rfl⟩

theorem keys_bumpDays (day : String) (k : MetricKind)
    (l : List (String × DayCounters)) :
    (bumpDays day k l).map Prod.fst =
      if day ∈ l.map Prod.fst then l.map Prod.fst
      else l.map Prod.fst ++ [day] := by
  induction l with
  | nil => simp [bumpDays]
  | cons hd tl ih =>
    obtain ⟨a, c⟩ := hd
    by_cases haday : a = day
    · subst haday
      simp [bumpDays]
    · simp only [bumpDays, if_neg haday, List.map_cons, List.mem_cons]
      have hne : ¬ day = a := fun h => haday h.symm
      by_cases hmem : day ∈ tl.map Prod.fst <;> simp [hne, hmem, ih]

theorem keys_nodup_bumpDays (day : String) (k : MetricKind)
    (l : List (String × DayCounters)) (h : (l.map Prod.fst).Nodup) :
    ((bumpDays day k l).map Prod.fst).Nodup := by
  rw [keys_bumpDays]
  by_cases hmem : day ∈ l.map Prod.fst
  · simpa [hmem] using h
  · simp only [if_neg hmem]
    exact h.append (List.nodup_singleton day) (by simpa using hmem)

theorem keys_nodup_applyBumps (ops : List (String × MetricKind)) :
    ((applyBumps Metrics.empty ops).days.map Prod.fst).Nodup := by
  have general : ∀ (ops : List (String × MetricKind)) (m : Metrics),
      (m.days.map Prod.fst).Nodup →
      ((applyBumps m ops).days.map Prod.fst).Nodup := by
    intro ops
    induction ops with
    | nil => intro m hm; exact hm
    | cons p rest ih =>
      intro m hm
      exact ih (m.bumpMetric p.1 p.2) (keys_nodup_bumpDays p.1 p.2 m.days hm)
  exact general ops Metrics.empty (by simp [Metrics.empty])

theorem bumpDays_of_absent (day : String) (k : MetricKind)
    (l : List (String × DayCounters)) (h : lookupDay day l = none) :
    bumpDays day k l = l ++ [(day, DayCounters.zero.bump k)] := by
  induction l with
  | nil => simp [bumpDays]
  | cons hd tl ih =>
    obtain ⟨a, c⟩ := hd
    simp only [lookupDay] at h
    by_cases ha : a = day
    · simp [ha] at h
    · simp only [bumpDays, if_neg ha, List.cons_append, List.cons.injEq,
        true_and]
      exact ih (by simpa [ha] using h)

/-- C6: for every counter name k, day key d and count N, calling
bumpMetric N times for the pair (d, k) yields a stored value of exactly N
for that counter, however the calls interleave with bumps of other
(day, counter) pairs: starting from the empty metrics document, the stored
count of (d, k) equals the number of occurrences of (d, k) in the call
sequence. -/
theorem bumpMetric_count_exact (ops : List (String × MetricKind))
    (d : String) (k : MetricKind) :
    (applyBumps Metrics.empty ops).count d k = ops.count (d, k) := by
  have h0 : Metrics.empty.count d k = 0 := by cases k <;> rfl
  rw [Metrics.count_applyBumps, h0, Nat.zero_add]

/-- C8: every counter is monotonically non-decreasing under bumpMetric; a
day record is created lazily by the first bump of its day, with all four
counters 0 before that bump's increment is applied (the record appended is
DayCounters.zero.bump k); and the read-only exports mutate nothing:
getMetrics returns the metrics value itself unchanged (getMetricsRows is a
pure function of the state in this embedding, of type Metrics to row
list). -/
theorem metrics_monotone_and_lazy_init :
    (∀ (m : Metrics) (day : String) (k : MetricKind) (d : String)
        (k2 : MetricKind), m.count d k2 ≤ (m.bumpMetric day k).count d k2) ∧
    (∀ (m : Metrics) (day : String) (k : MetricKind),
        lookupDay day m.days = none →
        (m.bumpMetric day k).days = m.days ++ [(day, DayCounters.zero.bump k)]) ∧
    (∀ m : Metrics, m.getMetrics = m) := by
  refine ⟨?_, ?_, fun _ => rfl⟩
  · intro m day k d k2
    rw [Metrics.count_bumpMetric]
    split <;> omega
  · intro m day k hnone
    exact bumpDays_of_absent day k m.days hnone

/-- Witness for C8 at a concrete input: the first bump of a fresh day
appends that day's record, initialized to zero and then incremented. -/
theorem metrics_monotone_and_lazy_init_witness :
    (Metrics.empty.bumpMetric "2025-06-05" .qr_scans).days =
      [("2025-06-05", DayCounters.zero.bump .qr_scans)] :=
  metrics_monotone_and_lazy_init.2.1 Metrics.empty "2025-06-05" .qr_scans rfl

/-! ## Lemmas: the scan-landing handler -/

@[simp] theorem bump_currentToken (s : KioskState) (day : String)
    (k : MetricKind) : (s.bump day k).currentToken = s.currentToken := rfl

@[simp] theorem bump_consumed (s : KioskState) (day : String)
    (k : MetricKind) : (s.bump day k).consumed = s.consumed := rfl

@[simp] theorem bump_metrics (s : KioskState) (day : String)
    (k : MetricKind) : (s.bump day k).metrics = s.metrics.bumpMetric day k := rfl

@[simp] theorem consumeToken_currentToken (s : KioskState) (t : Int) :
    (s.consumeToken t).currentToken = s.currentToken := rfl

@[simp] theorem consumeToken_consumed (s : KioskState) (t : Int) :
    (s.consumeToken t).consumed = t :: s.consumed := rfl

@[simp] theorem consumeToken_metrics (s : KioskState) (t : Int) :
    (s.consumeToken t).metrics = s.metrics := rfl

@[simp] theorem advanceIfCurrent_consumed (s : KioskState) (t : Int) :
    (advanceIfCurrent s t).consumed = s.consumed := by
  unfold advanceIfCurrent
  split <;> rfl

@[simp] theorem advanceIfCurrent_metrics (s : KioskState) (t : Int) :
    (advanceIfCurrent s t).metrics = s.metrics := by
  unfold advanceIfCurrent
  split <;> rfl

theorem advanceIfCurrent_currentToken (s : KioskState) (t : Int) :
    (advanceIfCurrent s t).currentToken =
      if t = s.currentToken then s.currentToken + 1 else s.currentToken := by
  unfold advanceIfCurrent
  split <;> rfl

theorem isConsumed_eq_true_iff (s : KioskState) (t : Int) :
    s.isConsumed t = true ↔ t ∈ s.consumed := by
  simp [KioskState.isConsumed]

theorem handleScan_of_invalid (s : KioskState) (ts day : String)
    (h : parseIntJs ts = none) :
    handleScan s ts day = (ScanResponse.invalidToken, s) := by
  unfold handleScan
  rw [h]

theorem handleScan_of_used (s : KioskState) (t : Int) (ts day : String)
    (h : parseIntJs ts = some t) (hc : t ∈ s.consumed) :
    handleScan s ts day =
      (ScanResponse.expired, (s.bump day .qr_scans).bump day .revisits) := by
  unfold handleScan
  rw [h]
  have : (s.bump day .qr_scans).isConsumed t = true :=
    (isConsumed_eq_true_iff _ t).mpr hc
  simp only [this, if_true]

theorem handleScan_of_fresh (s : KioskState) (t : Int) (ts day : String)
    (h : parseIntJs ts = some t) (hc : t ∉ s.consumed) :
    handleScan s ts day =
      (ScanResponse.redirect t,
       (advanceIfCurrent
         (((s.bump day .qr_scans).consumeToken t).bump day .unique_scans) t).bump
         day .redirects) := by
  unfold handleScan
  rw [h]
  have : ¬ (s.bump day .qr_scans).isConsumed t = true := by
    rw [isConsumed_eq_true_iff]
    simpa using hc
  simp only [this, if_false, Bool.not_eq_true] at *
  simp [this]

theorem consumed_handleScan_mono (s : KioskState) (ts day : String) :
    ∀ u ∈ s.consumed, u ∈ (handleScan s ts day).2.consumed := by
  intro u hu
  rcases h : parseIntJs ts with _ | t
  · rw [handleScan_of_invalid s ts day h]
    exact hu
  · by_cases hc : t ∈ s.consumed
    · rw [handleScan_of_used s t ts day h hc]
      exact hu
    · rw [handleScan_of_fresh s t ts day h hc]
      simp [hu]

theorem consumed_runScans_mono (reqs : List (String × String))
    (s : KioskState) : ∀ u ∈ s.consumed, u ∈ (runScans s reqs).consumed := by
  induction reqs generalizing s with
  | nil => exact fun u hu => hu
  | cons r rest ih =>
    intro u hu
    obtain ⟨ts, day⟩ := r
    exact ih (handleScan s ts day).2 u (consumed_handleScan_mono s ts day u hu)

/-- C1: for every integer token t, the first scan-landing request that
consumes t observes first use and takes the redirect branch; every
subsequent request for the same t, after any further sequence of requests
whatsoever, takes the already-used branch (410 expired), indefinitely. -/
theorem token_single_use (s : KioskState) (t : Int) (ts day : String)
    (hts : parseIntJs ts = some t) (hnew : t ∉ s.consumed) :
    (handleScan s ts day).1 = ScanResponse.redirect t ∧
    ∀ (reqs : List (String × String)) (ts2 day2 : String),
      parseIntJs ts2 = some t →
      (handleScan (runScans (handleScan s ts day).2 reqs) ts2 day2).1 =
        ScanResponse.expired := by
  constructor
  · rw [handleScan_of_fresh s t ts day hts hnew]
  · intro reqs ts2 day2 hts2
    have h1 : t ∈ (handleScan s ts day).2.consumed := by
      rw [handleScan_of_fresh s t ts day hts hnew]
      simp
    have h2 : t ∈ (runScans (handleScan s ts day).2 reqs).consumed :=
      consumed_runScans_mono reqs _ t h1
    rw [handleScan_of_used _ t ts2 day2 hts2 h2]

/-- Witness for C1: from the fresh kiosk, the first scan of token 1000
redirects and a repeat scan of 1000 (after an interposed scan of 1001)
sees the expired page. -/
theorem token_single_use_witness :
    (handleScan initialState "1000" "2025-06-05").1 = ScanResponse.redirect 1000 ∧
    (handleScan
      (runScans (handleScan initialState "1000" "2025-06-05").2
        [("1001", "2025-06-05")]) "1000" "2025-06-06").1 =
      ScanResponse.expired := by
  have h := token_single_use initialState 1000 "1000" "2025-06-05"
    (by decide) (by decide)
  exact ⟨h.1, h.2 [("1001", "2025-06-05")] "1000" "2025-06-06" (by decide)⟩

/-- C3: the advance step (lines 333-336) changes currentToken only when
the consumed token equals currentToken at the time of the call, in which
case currentToken becomes t + 1; with any other token value the whole
state is left unchanged, so a stale token never moves or regresses the
pointer. -/
theorem advance_only_if_current (s : KioskState) (t : Int) :
    (t = s.currentToken → (advanceIfCurrent s t).currentToken = t + 1) ∧
    (t ≠ s.currentToken → advanceIfCurrent s t = s) := by
  constructor
  · intro h
    rw [advanceIfCurrent_currentToken, if_pos h, h]
  · intro h
    unfold advanceIfCurrent
    rw [if_neg h]

/-- Witness for C3: advancing with the current token 1000 moves the
pointer to 1001; advancing with the stale token 999 changes nothing. -/
theorem advance_only_if_current_witness :
    (advanceIfCurrent initialState 1000).currentToken = 1000 + 1 ∧
    advanceIfCurrent initialState 999 = initialState :=
  ⟨(advance_only_if_current initialState 1000).1 rfl,
   (advance_only_if_current initialState 999).2 (by decide)⟩

theorem currentToken_handleScan (s : KioskState) (ts day : String) :
    (handleScan s ts day).2.currentToken = s.currentToken ∨
    (parseIntJs ts = some s.currentToken ∧ s.currentToken ∉ s.consumed ∧
     (handleScan s ts day).2.currentToken = s.currentToken + 1) := by
  rcases h : parseIntJs ts with _ | t
  · left
    rw [handleScan_of_invalid s ts day h]
  · by_cases hc : t ∈ s.consumed
    · left
      rw [handleScan_of_used s t ts day h hc]
      rfl
    · rw [handleScan_of_fresh s t ts day h hc]
      by_cases ht : t = s.currentToken
      · right
        subst ht
        refine ⟨rfl, hc, ?_⟩
        simp [advanceIfCurrent_currentToken]
      · left
        simp [advanceIfCurrent_currentToken, ht]

theorem runScans_currentToken_mono (reqs : List (String × String))
    (s : KioskState) : s.currentToken ≤ (runScans s reqs).currentToken := by
  induction reqs generalizing s with
  | nil => exact le_refl _
  | cons r rest ih =>
    obtain ⟨ts, day⟩ := r
    refine le_trans ?_ (ih (handleScan s ts day).2)
    rcases currentToken_handleScan s ts day with h | ⟨_, _, h⟩ <;> rw [h] <;> omega

/-- C4: starting from the fixed seed 1000, currentToken is monotonically
non-decreasing: the seed is 1000, every handler transition keeps or grows
the pointer, a transition that changes it can only be the first
consumption of the token equal to currentToken (advancing it by one),
and after any sequence of scan-landing requests the pointer is at least
1000. -/
theorem currentToken_monotone_from_seed :
    initialState.currentToken = 1000 ∧
    (∀ (s : KioskState) (ts day : String),
        s.currentToken ≤ (handleScan s ts day).2.currentToken) ∧
    (∀ (s : KioskState) (ts day : String),
        (handleScan s ts day).2.currentToken ≠ s.currentToken →
        parseIntJs ts = some s.currentToken ∧ s.currentToken ∉ s.consumed ∧
        (handleScan s ts day).2.currentToken = s.currentToken + 1) ∧
    (∀ reqs : List (String × String),
        1000 ≤ (runScans initialState reqs).currentToken) := by
  refine ⟨rfl, ?_, ?_, ?_⟩
  · intro s ts day
    rcases currentToken_handleScan s ts day with h | ⟨_, _, h⟩ <;> rw [h] <;> omega
  · intro s ts day hne
    rcases currentToken_handleScan s ts day with h | hadv
    · exact absurd h hne
    · exact hadv
  · intro reqs
    exact runScans_currentToken_mono reqs initialState

/-- Witness for C4: scanning the current token 1000 on the fresh kiosk
changes the pointer, and the theorem then pins the transition down to the
guarded advance to 1000 + 1. -/
theorem currentToken_monotone_from_seed_witness :
    parseIntJs "1000" = some initialState.currentToken ∧
    initialState.currentToken ∉ initialState.consumed ∧
    (handleScan initialState "1000" "2025-06-05").2.currentToken =
      initialState.currentToken + 1 :=
  currentToken_monotone_from_seed.2.2.1 initialState "1000" "2025-06-05"
    (by decide)

/-- C5 (amended): a request whose token parameter fails JS integer
parsing (parseInt(token, 10) is NaN, for example the string "abc") is
rejected immediately with the 400 response and exactly the prior state:
no token is consumed, currentToken is unchanged and no metric counter is
incremented. -/
theorem malformed_token_rejected (s : KioskState) (ts day : String)
    (h : parseIntJs ts = none) :
    handleScan s ts day = (ScanResponse.invalidToken, s) :=
  handleScan_of_invalid s ts day h

/-- Witness for C5: the scenario of the spec, token string "abc". -/
theorem malformed_token_rejected_witness :
    handleScan initialState "abc" "2025-06-05" =
      (ScanResponse.invalidToken, initialState) :=
  malformed_token_rejected initialState "abc" "2025-06-05" (by decide)

/-- Counterexample to C5 as stated: the token string "-5" is not a
well-formed non-negative integer, yet the handler does not reject it:
parseInt yields the integer -5, the request consumes token -5, increments
qr_scans and redirects. -/
theorem negative_token_not_rejected :
    parseIntJs "-5" = some (-5) ∧
    (handleScan initialState "-5" "2025-06-05").1 = ScanResponse.redirect (-5) ∧
    (handleScan initialState "-5" "2025-06-05").2.metrics.count "2025-06-05"
      MetricKind.qr_scans = 1 ∧
    (-5 : Int) ∈ (handleScan initialState "-5" "2025-06-05").2.consumed := by
  refine ⟨by decide, by decide, by decide, by decide⟩

theorem metricsBalanced_handleScan (s : KioskState) (ts day : String)
    (h : metricsBalanced s.metrics) :
    metricsBalanced (handleScan s ts day).2.metrics := by
  rcases hp : parseIntJs ts with _ | t
  · rw [handleScan_of_invalid s ts day hp]
    exact h
  · by_cases hc : t ∈ s.consumed
    · rw [handleScan_of_used s t ts day hp hc]
      intro d
      have hd := h d
      simp only [bump_metrics, Metrics.count_bumpMetric]
      by_cases hday : day = d <;> simp [hday] <;> omega
    · rw [handleScan_of_fresh s t ts day hp hc]
      intro d
      have hd := h d
      simp only [bump_metrics, advanceIfCurrent_metrics, consumeToken_metrics,
        Metrics.count_bumpMetric]
      by_cases hday : day = d <;> simp [hday] <;> omega

/-- C10: after every completed scan-landing request whose increments all
fall on one day key (the day parameter of the embedded handler), each
day's counters satisfy unique_scans = redirects and
qr_scans = unique_scans + revisits: the balance holds on the fresh kiosk,
is preserved by every request, and therefore holds after any sequence of
requests. -/
theorem scan_metrics_balanced :
    metricsBalanced initialState.metrics ∧
    (∀ (s : KioskState) (ts day : String), metricsBalanced s.metrics →
        metricsBalanced (handleScan s ts day).2.metrics) ∧
    (∀ reqs : List (String × String),
        metricsBalanced (runScans initialState reqs).metrics) := by
  have hinit : metricsBalanced initialState.metrics := by
    intro d
    constructor <;> rfl
  refine ⟨hinit, fun s ts day h => metricsBalanced_handleScan s ts day h, ?_⟩
  intro reqs
  have general : ∀ (reqs : List (String × String)) (s : KioskState),
      metricsBalanced s.metrics → metricsBalanced (runScans s reqs).metrics := by
    intro reqs
    induction reqs with
    | nil => exact fun s h => h
    | cons r rest ih =>
      intro s h
      obtain ⟨ts, day⟩ := r
      exact ih (handleScan s ts day).2 (metricsBalanced_handleScan s ts day h)
  exact general reqs initialState hinit

/-- Witness for C10: the balance after one concrete request, with the
hypothesis discharged by the theorem's own base clause. -/
theorem scan_metrics_balanced_witness :
    metricsBalanced (handleScan initialState "1000" "2025-06-05").2.metrics :=
  scan_metrics_balanced.2.1 initialState "1000" "2025-06-05"
    scan_metrics_balanced.1

/-- C2 evidence (code bug): the handler's consume is a read-then-write
pair (await store.isConsumed on line 328, await store.consumeToken on
line 330), not an atomic check-and-set.  Two concurrent requests for the
token 1000, interleaved so that both isConsumed reads run before either
consumeToken write (schedule true, true, false, false, then each thread
to completion), both observe first use and both finish in the redirect
branch, and unique_scans is incremented twice for one token — the claim
says exactly one caller may observe first use.  Under the fully
sequential schedule (one request entirely before the other) exactly one
caller wins, so the violation is specifically the interleaving. -/
theorem consume_race_two_first_uses :
    (runTwo initialState
        { token := 1000, day := "2025-06-05", phase := Phase.bumpScan }
        { token := 1000, day := "2025-06-05", phase := Phase.bumpScan }
        [true, true, false, false, true, true, true, true, true,
         false, false, false, false, false]).2.1.phase = Phase.doneRedirect ∧
    (runTwo initialState
        { token := 1000, day := "2025-06-05", phase := Phase.bumpScan }
        { token := 1000, day := "2025-06-05", phase := Phase.bumpScan }
        [true, true, false, false, true, true, true, true, true,
         false, false, false, false, false]).2.2.phase = Phase.doneRedirect ∧
    (runTwo initialState
        { token := 1000, day := "2025-06-05", phase := Phase.bumpScan }
        { token := 1000, day := "2025-06-05", phase := Phase.bumpScan }
        [true, true, false, false, true, true, true, true, true,
         false, false, false, false, false]).1.metrics.count "2025-06-05"
      MetricKind.unique_scans = 2 ∧
    (runTwo initialState
        { token := 1000, day := "2025-06-05", phase := Phase.bumpScan }
        { token := 1000, day := "2025-06-05", phase := Phase.bumpScan }
        [true, true, true, true, true, true, true,
         false, false, false, false, false, false, false]).2.1.phase =
      Phase.doneRedirect ∧
    (runTwo initialState
        { token := 1000, day := "2025-06-05", phase := Phase.bumpScan }
        { token := 1000, day := "2025-06-05", phase := Phase.bumpScan }
        [true, true, true, true, true, true, true,
         false, false, false, false, false, false, false]).2.2.phase =
      Phase.doneExpired := by
  refine ⟨by decide, by decide, by decide, by decide, by decide⟩

/-! ## Lemmas: getMetricsRows (C7) -/

theorem getMetricsRows_keys (m : Metrics) :
    m.getMetricsRows.map Prod.fst =
      (m.days.map Prod.fst).mergeSort (fun a b => decide (a ≤ b)) := by
  simp [Metrics.getMetricsRows, List.map_map, Function.comp_def]

/-- C7: from every reachable metrics state (reachable states have no
duplicate day keys, first clause), the values written are the values read
back: getMetrics is the state itself, and getMetricsRows is sorted
strictly ascending by day key, its keys are a permutation of the distinct
day keys ever incremented (so exactly one row per day), and each row's
counters are exactly the snapshot's record for that day. -/
theorem metrics_rows_roundtrip :
    (∀ ops : List (String × MetricKind),
        ((applyBumps Metrics.empty ops).days.map Prod.fst).Nodup) ∧
    (∀ m : Metrics, (m.days.map Prod.fst).Nodup →
      (m.getMetricsRows.map Prod.fst).Sorted (· < ·) ∧
      (m.getMetricsRows.map Prod.fst).Perm (m.getMetrics.days.map Prod.fst) ∧
      ∀ p ∈ m.getMetricsRows, lookupDay p.1 m.getMetrics.days = some p.2) := by
  refine ⟨keys_nodup_applyBumps, ?_⟩
  intro m h
  have hperm : (m.getMetricsRows.map Prod.fst).Perm (m.days.map Prod.fst) := by
    rw [getMetricsRows_keys]
    exact List.mergeSort_perm _ _
  refine ⟨?_, hperm, ?_⟩
  · have hle : (m.getMetricsRows.map Prod.fst).Pairwise (· ≤ ·) := by
      rw [getMetricsRows_keys]
      have := @List.sorted_mergeSort String (fun a b : String => decide (a ≤ b))
        (fun a b c hab hbc => by
          simp only [decide_eq_true_eq] at *
          exact le_trans hab hbc)
        (fun a b => by
          simp only [Bool.or_eq_true, decide_eq_true_eq]
          exact le_total a b)
        (m.days.map Prod.fst)
      exact this.imp (by simp only [decide_eq_true_eq]; exact fun h => h)
    have hnd : (m.getMetricsRows.map Prod.fst).Nodup := hperm.symm.nodup h
    exact (hle.and hnd).imp fun hab => lt_of_le_of_ne hab.1 hab.2
  · intro p hp
    simp only [Metrics.getMetricsRows, List.mem_map] at hp
    obtain ⟨d, hd, hpd⟩ := hp
    have hdm : d ∈ m.days.map Prod.fst := by
      have : ∀ x ∈ (m.days.map Prod.fst).mergeSort
          (fun a b => decide (a ≤ b)), x ∈ m.days.map Prod.fst := by
        intro x hx
        exact (List.mergeSort_perm (m.days.map Prod.fst) _).mem_iff.mp hx
      exact this d hd
    obtain ⟨c, hc⟩ := lookupDay_isSome_of_mem d m.days hdm
    rw [← hpd]
    simp [Metrics.getMetrics, hc]

/-- Witness for C7 at a concrete state with unsorted distinct keys. -/
theorem metrics_rows_roundtrip_witness :
    ((Metrics.mk [("2025-06-06", DayCounters.zero),
        ("2025-06-05", DayCounters.zero)]).getMetricsRows.map
      Prod.fst).Sorted (· < ·) :=
  (metrics_rows_roundtrip.2
    (Metrics.mk [("2025-06-06", DayCounters.zero),
      ("2025-06-05", DayCounters.zero)]) (by decide)).1

/-! ## Lemmas: the Brisbane day key (C9) -/

theorem renderChars_unfold (n : Nat) :
    renderChars n =
      if n < 10 then [Nat.digitChar n]
      else renderChars (n / 10) ++ [Nat.digitChar (n % 10)] := by
  rw [renderChars]

theorem digitChar_toNat (a : Nat) (h : a < 10) :
    (Nat.digitChar a).toNat = 48 + a := by
  interval_cases a <;> rfl

theorem digitChar_inj (a b : Nat) (ha : a < 10) (hb : b < 10)
    (h : Nat.digitChar a = Nat.digitChar b) : a = b := by
  have := congrArg Char.toNat h
  rw [digitChar_toNat a ha, digitChar_toNat b hb] at this
  omega

theorem digitsVal_append_singleton (l : List Char) (c : Char) :
    digitsVal (l ++ [c]) = digitsVal l * 10 + (c.toNat - 48) := by
  simp [digitsVal, List.foldl_append]

theorem digitsVal_renderChars (n : Nat) : digitsVal (renderChars n) = n := by
  induction n using Nat.strong_induction_on with
  | _ n ih =>
    rw [renderChars_unfold]
    by_cases h : n < 10
    · rw [if_pos h]
      have := digitChar_toNat n h
      simp [digitsVal]
      omega
    · rw [if_neg h, digitsVal_append_singleton,
        ih (n / 10) (Nat.div_lt_self (by omega) (by omega)),
        digitChar_toNat (n % 10) (by omega)]
      omega

theorem renderChars_inj (a b : Nat) (h : renderChars a = renderChars b) :
    a = b := by
  rw [← digitsVal_renderChars a, ← digitsVal_renderChars b, h]

theorem pad2_inj (a b : Nat) (ha : a < 100) (hb : b < 100)
    (h : pad2 a = pad2 b) : a = b := by
  simp only [pad2, List.cons.injEq, and_true] at h
  have h1 := digitChar_inj (a / 10) (b / 10) (by omega) (by omega) h.1
  have h2 := digitChar_inj (a % 10) (b % 10) (by omega) (by omega) h.2
  omega

theorem pad2_length (a : Nat) : (pad2 a).length = 2 := rfl

theorem formatDate_inj (a b : Date) (ham : a.month < 100) (had : a.day < 100)
    (hbm : b.month < 100) (hbd : b.day < 100)
    (h : formatDate a = formatDate b) : a = b := by
  have hl := String.ext_iff.mp h
  simp only [formatDate] at hl
  have hs1 := List.append_inj' hl (by simp [pad2])
  have hday := pad2_inj a.day b.day had hbd (by
    have hc := hs1.2
    rw [List.cons.injEq] at hc
    exact hc.2)
  have hs2 := List.append_inj' hs1.1 (by simp [pad2])
  have hmon := pad2_inj a.month b.month ham hbm (by
    have hc := hs2.2
    rw [List.cons.injEq] at hc
    exact hc.2)
  have hy := renderChars_inj a.year b.year hs2.1
  cases a
  cases b
  simp_all

theorem daysInMonth_bounds (y m : Nat) :
    1 ≤ daysInMonth y m ∧ daysInMonth y m ≤ 31 := by
  unfold daysInMonth
  split_ifs <;> omega

theorem nextDate_valid (d : Date) (h : ValidDate d) :
    ValidDate (nextDate d) := by
  obtain ⟨h1, h2, h3, h4⟩ := h
  unfold nextDate
  split_ifs with hd hm
  · exact ⟨h1, h2, Nat.succ_le_succ (Nat.zero_le _), hd⟩
  · exact ⟨Nat.succ_le_succ (Nat.zero_le _), hm, Nat.le_refl 1,
      (daysInMonth_bounds _ _).1⟩
  · exact ⟨Nat.le_refl 1, (show (1 : Nat) ≤ 12 by decide), Nat.le_refl 1,
      (daysInMonth_bounds _ _).1⟩

theorem dateLt_nextDate (d : Date) : dateLt d (nextDate d) := by
  unfold nextDate dateLt
  split_ifs with hd hm
  · exact Or.inr ⟨rfl, Or.inr ⟨rfl, Nat.lt_succ_self _⟩⟩
  · exact Or.inr ⟨rfl, Or.inl (Nat.lt_succ_self _)⟩
  · exact Or.inl (Nat.lt_succ_self _)

theorem dateLt_ne (a b : Date) (h : dateLt a b) : a ≠ b := by
  intro heq
  subst heq
  unfold dateLt at h
  rcases h with h | ⟨_, h | ⟨_, h⟩⟩ <;> omega

theorem validDate_dateFromEpochDays (n : Nat) :
    ValidDate (dateFromEpochDays n) := by
  induction n with
  | zero => exact ⟨by decide, by decide, by decide, by decide⟩
  | succ k ih =>
    have : dateFromEpochDays (k + 1) = nextDate (dateFromEpochDays k) :=
      Function.iterate_succ_apply' nextDate k epochDate
    rw [this]
    exact nextDate_valid _ ih

/-- C9: the day key is computed from wall-clock time in the one fixed
timezone Australia/Brisbane (UTC+10): for any instant t (milliseconds
since the Unix epoch, t at or after the epoch) lying in the local second
23:59:59 of a Brisbane day, the instant two seconds later lies at 00:00:01
local of the next day, and the two instants map to different day keys.
The host timezone does not occur in dayKeyBrisbane at all: the offset is
the fixed +10 h of the named zone. -/
theorem dayKey_changes_at_brisbane_midnight (t : Int) (h0 : 0 ≤ t)
    (hlast : (t + 36000000) % 86400000 / 1000 = 86399) :
    dayKeyBrisbane t ≠ dayKeyBrisbane (t + 2000) := by
  have hday : brisbaneEpochDay (t + 2000) = brisbaneEpochDay t + 1 := by
    unfold brisbaneEpochDay
    omega
  have hnn : 0 ≤ brisbaneEpochDay t := by
    unfold brisbaneEpochDay
    omega
  have htn : (brisbaneEpochDay (t + 2000)).toNat =
      (brisbaneEpochDay t).toNat + 1 := by omega
  unfold dayKeyBrisbane
  rw [htn]
  have hsucc : dateFromEpochDays ((brisbaneEpochDay t).toNat + 1) =
      nextDate (dateFromEpochDays (brisbaneEpochDay t).toNat) :=
    Function.iterate_succ_apply' nextDate _ epochDate
  rw [hsucc]
  intro heq
  have hv1 := validDate_dateFromEpochDays (brisbaneEpochDay t).toNat
  have hv2 := nextDate_valid _ hv1
  have hb1 := daysInMonth_bounds (dateFromEpochDays (brisbaneEpochDay t).toNat).year
    (dateFromEpochDays (brisbaneEpochDay t).toNat).month
  have hb2 := daysInMonth_bounds
    (nextDate (dateFromEpochDays (brisbaneEpochDay t).toNat)).year
    (nextDate (dateFromEpochDays (brisbaneEpochDay t).toNat)).month
  obtain ⟨_, hm1, _, hd1⟩ := hv1
  obtain ⟨_, hm2, _, hd2⟩ := hv2
  exact dateLt_ne _ _ (dateLt_nextDate _)
    (formatDate_inj _ _ (by omega) (by omega) (by omega) (by omega) heq)

/-- Witness for C9: the first Brisbane midnight after the epoch,
1970-01-01 23:59:59.000 and 1970-01-02 00:00:01.000 Brisbane time. -/
theorem dayKey_changes_at_brisbane_midnight_witness :
    dayKeyBrisbane 50399000 ≠ dayKeyBrisbane (50399000 + 2000) :=
  dayKey_changes_at_brisbane_midnight 50399000 (by decide) (by decide)

end Flashka
